import Mathlib

/-!
Verification of the shiftmanager specification against the repository.

The repository ships a management utility for Amazon Redshift.  The
implementation module shiftmanager/redshift.py is not present under the
sources; only the project metadata and the test suite
(shiftmanager/tests/test_redshift.py) are.  The definitions below therefore
embed the behaviour of the Redshift helper methods as modelled from the
specification, with the repository's own tests pinning the concrete data
formats wherever the specification leaves them open.  External collaborators
(gzip, the JSON serializer, psycopg2, boto) are out of scope per the
specification and are modelled as transparent encodings or as events in a
call trace.
-/

set_option maxHeartbeats 1000000
set_option maxRecDepth 10000
set_option linter.unusedVariables false

namespace Shiftmanager

/-- Modelled from the spec: redshift.py is missing from the sources.  The spec
describes chunked_json_slices as "splitting an in-memory dataset into N
chunks".  The chunk size is the ceiling of the record count divided by the
slice count, so that exactly N contiguous chunks cover the list in order:
the repository test chunk_checker requires that concatenating the decoded
chunks in path order restore the dataset, and test_chunk_json_slices
requires exactly N paths even when N exceeds the record count. -/
def chunkSize (len slices : Nat) : Nat :=
  (len + slices - 1) / slices

/-- Modelled from the spec: the chunk with index i of the dataset, a
contiguous block of c records starting at offset i * c. -/
def sliceChunk (data : List α) (c i : Nat) : List α :=
  (data.drop (i * c)).take c

/-- Modelled from the spec: the list of N chunks of the dataset, in path
order. -/
def chunkedSlices (data : List α) (slices : Nat) : List (List α) :=
  (List.range slices).map (sliceChunk data (chunkSize data.length slices))

/-- Definition following the specification's words, for comparison: "the
chunking is a simple modulo-based partition of a list", i.e. the record at
index i is assigned to the chunk numbered i mod N. -/
def moduloPartition (data : List α) (slices : Nat) : List (List α) :=
  (List.range slices).map
    (fun j => (data.enum.filter (fun p => p.1 % slices == j)).map Prod.snd)

/-- A record is modelled as the list of characters of its serialized
single-line JSON text; writing a chunk appends a newline after each record.
Translated from the newline-delimited layout that chunk_checker
(test_redshift.py) decodes. -/
def encodeLines : List (List Char) → List Char
  | [] => []
  | l :: ls => l ++ '\n' :: encodeLines ls

/-- Python str.split for the one-character separator used by chunk_checker
(decoded.split with a newline), written over character lists. -/
def splitNl : List Char → List (List Char)
  | [] => [[]]
  | c :: cs =>
    match splitNl cs with
    | [] => [[c]]
    | r :: rs => if c = '\n' then [] :: r :: rs else (c :: r) :: rs

/-- Decoding of one chunk file, translated from chunk_checker in
test_redshift.py: split the decompressed payload on newlines and keep the
nonempty lines.  The gzip layer is an external library ("write standard
gzip", spec section 1) and is modelled as the identity on the payload. -/
def decodeFile (cs : List Char) : List (List Char) :=
  (splitNl cs).filter (fun l => !l.isEmpty)

/-- Modelled from the spec: the local file path of each chunk, one path per
slice index, inside the chosen directory. -/
def chunkPaths (dir stamp : String) (slices : Nat) : List String :=
  (List.range slices).map (fun i => dir ++ "/" ++ stamp ++ "-" ++ Nat.repr i ++ ".gz")

/-- Modelled from the spec: chunked_json_slices writes each chunk as
gzip-compressed newline-delimited JSON to local disk and yields the
generated stamp and the file paths.  The model returns the paths together
with the (decompressed) payload of each written file. -/
def chunked_json_slices (data : List (List Char)) (slices : Nat)
    (dir stamp : String) : List String × List (List Char) :=
  (chunkPaths dir stamp slices, (chunkedSlices data slices).map encodeLines)

theorem splitNl_ne_nil (cs : List Char) : splitNl cs ≠ [] := by
  cases cs with
  | nil => simp [splitNl]
  | cons c cs =>
    simp only [splitNl]
    cases splitNl cs with
    | nil => simp
    | cons r rs =>
      by_cases h : c = '\n' <;> simp [h]

theorem splitNl_cons (c : Char) (cs : List Char) :
    splitNl (c :: cs) = match splitNl cs with
      | [] => [[c]]
      | r :: rs => if c = '\n' then [] :: r :: rs else (c :: r) :: rs := rfl

theorem splitNl_append_newline (l rest : List Char) (h : '\n' ∉ l) :
    splitNl (l ++ '\n' :: rest) = l :: splitNl rest := by
  induction l with
  | nil =>
    cases hr : splitNl rest with
    | nil => exact absurd hr (splitNl_ne_nil rest)
    | cons r rs => simp [splitNl, hr]
  | cons c l ih =>
    have hc : c ≠ '\n' := fun e => h (by simp [e])
    have h' : '\n' ∉ l := fun m => h (List.mem_cons_of_mem _ m)
    rw [List.cons_append, splitNl_cons, ih h']
    simp [hc]

theorem decodeFile_encodeLines (lines : List (List Char))
    (h : ∀ l ∈ lines, l ≠ [] ∧ '\n' ∉ l) :
    decodeFile (encodeLines lines) = lines := by
  induction lines with
  | nil => rfl
  | cons l ls ih =>
    obtain ⟨hne, hnl⟩ := h l (List.mem_cons_self l ls)
    have hrec : ∀ x ∈ ls, x ≠ [] ∧ '\n' ∉ x :=
      fun x hx => h x (List.mem_cons_of_mem _ hx)
    simp only [encodeLines, decodeFile, splitNl_append_newline l _ hnl,
      List.filter_cons]
    have : l.isEmpty = false := by
      cases l with
      | nil => exact absurd rfl hne
      | cons a as => rfl
    simp only [this, Bool.not_false, if_pos]
    exact congrArg (l :: ·) (ih hrec)

theorem flatten_chunks (data : List α) (c : Nat) (k : Nat) :
    ((List.range k).map (sliceChunk data c)).flatten = data.take (k * c) := by
  induction k with
  | zero => simp
  | succ n ih =>
    rw [List.range_succ, List.map_append, List.flatten_append, ih,
      Nat.succ_mul, List.take_add]
    simp [sliceChunk]

theorem length_le_mul_chunkSize (len slices : Nat) (h : 1 ≤ slices) :
    len ≤ slices * chunkSize len slices := by
  have hd := Nat.div_add_mod (len + slices - 1) slices
  have hm : (len + slices - 1) % slices < slices := Nat.mod_lt _ (by omega)
  unfold chunkSize
  generalize ht : slices * ((len + slices - 1) / slices) = t at hd ⊢
  omega

theorem flatten_chunkedSlices (data : List α) (slices : Nat) (h : 1 ≤ slices) :
    (chunkedSlices data slices).flatten = data := by
  rw [chunkedSlices, flatten_chunks]
  exact List.take_of_length_le (length_le_mul_chunkSize data.length slices h)

theorem mem_of_mem_chunkedSlices {data : List α} {slices : Nat}
    {chunk : List α} {x : α} (hc : chunk ∈ chunkedSlices data slices)
    (hx : x ∈ chunk) : x ∈ data := by
  obtain ⟨i, _, rfl⟩ := List.mem_map.mp hc
  exact List.mem_of_mem_drop (List.mem_of_mem_take hx)

/-- C1: for every record list and every slice count N with N at least 1,
chunked_json_slices yields exactly N file paths and N files, and decoding
every file (splitting the newline-delimited payload) and concatenating the
records in path order restores exactly the original list. -/
theorem C1_chunked_json_slices_round_trip
    (data : List (List Char)) (slices : Nat) (dir stamp : String)
    (hs : 1 ≤ slices) (hrec : ∀ l ∈ data, l ≠ [] ∧ '\n' ∉ l) :
    (chunked_json_slices data slices dir stamp).1.length = slices ∧
    (chunked_json_slices data slices dir stamp).2.length = slices ∧
    ((chunked_json_slices data slices dir stamp).2.map decodeFile).flatten
      = data := by
  refine ⟨by simp [chunked_json_slices, chunkPaths],
    by simp [chunked_json_slices, chunkedSlices], ?_⟩
  have hmap : ((chunkedSlices data slices).map encodeLines).map decodeFile
      = chunkedSlices data slices := by
    rw [List.map_map]
    have : (chunkedSlices data slices).map (decodeFile ∘ encodeLines)
        = (chunkedSlices data slices).map id :=
      List.map_congr_left (fun chunk hc =>
        decodeFile_encodeLines chunk
          (fun l hl => hrec l (mem_of_mem_chunkedSlices hc hl)))
    rw [this, List.map_id]
  have h2 : (chunked_json_slices data slices dir stamp).2
      = (chunkedSlices data slices).map encodeLines := rfl
  rw [h2, hmap]
  exact flatten_chunkedSlices data slices hs

/-- C1 witness: a concrete three-record dataset split into five slices. -/
theorem C1_witness :
    (1 ≤ 5 ∧ (∀ l ∈ [['a'], ['b', 'b'], ['c']], l ≠ [] ∧ '\n' ∉ l)) ∧
    ((chunked_json_slices [['a'], ['b', 'b'], ['c']] 5 "d" "s").1.length = 5 ∧
     (chunked_json_slices [['a'], ['b', 'b'], ['c']] 5 "d" "s").2.length = 5 ∧
     ((chunked_json_slices [['a'], ['b', 'b'], ['c']] 5 "d" "s").2.map
       decodeFile).flatten = [['a'], ['b', 'b'], ['c']]) :=
  ⟨⟨by decide, by decide⟩,
    C1_chunked_json_slices_round_trip [['a'], ['b', 'b'], ['c']] 5 "d" "s"
      (by decide) (by decide)⟩

/-- C2 counterexample: on the test dataset of sixteen records with five
slices, the record at index 1 does not land in chunk 1 mod 5 = 1, and no
modulo-based partition can pass the repository's chunk_checker test, which
requires that concatenating the chunks in path order restore the list. -/
theorem C2_counterexample :
    (1 : Nat) ∉ (chunkedSlices (List.range 16) 5).getD (1 % 5) [] ∧
    (moduloPartition (List.range 16) 5).flatten ≠ List.range 16 := by
  decide

/-- C2 amended: the chunking is a contiguous partition, not a modulo one:
with chunk size c the ceiling of L / N, the record at index i is assigned to
the chunk numbered i / c, at offset i mod c inside it. -/
theorem C2_contiguous_assignment (data : List α) (slices i : Nat)
    (hs : 1 ≤ slices) (hi : i < data.length) :
    ((chunkedSlices data slices).getD
        (i / chunkSize data.length slices) [])[i % chunkSize data.length slices]?
      = data[i]? := by
  have hc : 0 < chunkSize data.length slices := by
    apply Nat.div_pos _ (by omega)
    omega
  have hj : i / chunkSize data.length slices < slices := by
    rw [Nat.div_lt_iff_lt_mul hc]
    calc i < data.length := hi
      _ ≤ slices * chunkSize data.length slices :=
        length_le_mul_chunkSize data.length slices hs
  have hchunk : (chunkedSlices data slices)[i / chunkSize data.length slices]?
      = some (sliceChunk data (chunkSize data.length slices)
          (i / chunkSize data.length slices)) := by
    rw [chunkedSlices, List.getElem?_map, List.getElem?_range hj]
    rfl
  rw [List.getD_eq_getElem?_getD, hchunk, Option.getD_some, sliceChunk,
    List.getElem?_take_of_lt (Nat.mod_lt _ hc), List.getElem?_drop,
    Nat.mul_comm, Nat.div_add_mod]

/-- C2 amended witness: record index 13 of the sixteen-record dataset with
five slices lands in chunk 13 / 4 = 3 at offset 13 mod 4 = 1. -/
theorem C2_witness :
    (1 ≤ 5 ∧ 13 < (List.range 16).length) ∧
    ((chunkedSlices (List.range 16) 5).getD
        (13 / chunkSize (List.range 16).length 5)
        [])[13 % chunkSize (List.range 16).length 5]?
      = (List.range 16)[13]? :=
  ⟨⟨by decide, by decide⟩,
    C2_contiguous_assignment (List.range 16) 5 13 (by decide) (by decide)⟩

/-- Modelled from the spec: a JSON-ish dictionary value for gen_jsonpaths
("recursive dictionary traversal to build JSON-path strings", spec section
1).  A value is a scalar, a list (whose elements are irrelevant to path
building), or a nested dictionary given as an association sequence of
string keys to values (objNil / objCons spine). -/
inductive JValue where
  | scalar (n : Int)
  | arr (elems : List Int)
  | objNil
  | objCons (key : String) (val : JValue) (rest : JValue)
deriving DecidableEq

/-- A dictionary value built from an association list, in insertion order. -/
def objOfList : List (String × JValue) → JValue
  | [] => JValue.objNil
  | (key, v) :: rest => JValue.objCons key v (objOfList rest)

/-- Modelled from the spec: the recursive traversal collecting one bracketed
JSON path per leaf.  A scalar leaf yields the accumulated path, a list leaf
yields the path extended with the supplied array index, and a dictionary
recurses into each value with the path extended by the bracketed key.  The
concrete bracket format is pinned by test_jsonpaths in test_redshift.py. -/
def pathsOf (k : Nat) (pre : String) : JValue → List String
  | JValue.scalar _ => [pre]
  | JValue.arr _ => [pre ++ "[" ++ Nat.repr k ++ "]"]
  | JValue.objNil => []
  | JValue.objCons key v rest =>
      pathsOf k (pre ++ "['" ++ key ++ "']") v ++ pathsOf k pre rest

/-- The result shape of gen_jsonpaths: an object with a single jsonpaths
field holding the list of path strings. -/
structure JsonPathsDoc where
  jsonpaths : List String
deriving DecidableEq

/-- Lexicographic comparison of character sequences by code point, the order
in which Python sorts the path strings. -/
def leChars : List Char → List Char → Bool
  | [], _ => true
  | _ :: _, [] => false
  | a :: as, b :: bs => if a = b then leChars as bs else decide (a < b)

/-- Lexicographic order on strings, via their character data. -/
def strLe (a b : String) : Prop := leChars a.data b.data = true

instance decStrLe : DecidableRel strLe :=
  fun a b => Bool.decEq (leChars a.data b.data) true

theorem leChars_total : ∀ x y, leChars x y = true ∨ leChars y x = true := by
  intro x
  induction x with
  | nil => intro y; left; simp [leChars]
  | cons a as ih =>
    intro y
    cases y with
    | nil => right; simp [leChars]
    | cons b bs =>
      by_cases hab : a = b
      · subst hab
        rcases ih bs with h | h
        · left; simp [leChars, h]
        · right; simp [leChars, h]
      · rcases lt_or_gt_of_ne hab with h | h
        · left; simp [leChars, hab, h]
        · right
          have hba : ¬ b = a := fun e => hab e.symm
          simp [leChars, hba, h]

theorem leChars_trans :
    ∀ x y z, leChars x y = true → leChars y z = true → leChars x z = true := by
  intro x
  induction x with
  | nil => intro y z _ _; simp [leChars]
  | cons a as ih =>
    intro y z hxy hyz
    cases y with
    | nil => simp [leChars] at hxy
    | cons b bs =>
      cases z with
      | nil => simp [leChars] at hyz
      | cons c cs =>
        by_cases hab : a = b <;> by_cases hbc : b = c
        · subst hab; subst hbc
          simp only [leChars, if_pos rfl] at hxy hyz ⊢
          exact ih bs cs hxy hyz
        · subst hab
          simp only [leChars, if_pos rfl, if_neg hbc] at hyz
          have hlt : a < c := of_decide_eq_true hyz
          simp [leChars, ne_of_lt hlt, hlt]
        · subst hbc
          simp only [leChars, if_neg hab] at hxy
          have hlt : a < b := of_decide_eq_true hxy
          simp [leChars, ne_of_lt hlt, hlt]
        · simp only [leChars, if_neg hab] at hxy
          simp only [leChars, if_neg hbc] at hyz
          have hlt : a < c :=
            lt_trans (of_decide_eq_true hxy) (of_decide_eq_true hyz)
          simp [leChars, ne_of_lt hlt, hlt]

theorem leChars_antisymm :
    ∀ x y, leChars x y = true → leChars y x = true → x = y := by
  intro x
  induction x with
  | nil =>
    intro y _ hyx
    cases y with
    | nil => rfl
    | cons b bs => simp [leChars] at hyx
  | cons a as ih =>
    intro y hxy hyx
    cases y with
    | nil => simp [leChars] at hxy
    | cons b bs =>
      by_cases hab : a = b
      · subst hab
        simp only [leChars, if_pos rfl] at hxy hyx
        rw [ih bs hxy hyx]
      · have hba : ¬ b = a := fun e => hab e.symm
        simp only [leChars, if_neg hab] at hxy
        simp only [leChars, if_neg hba] at hyx
        exact absurd (of_decide_eq_true hyx)
          (lt_asymm (of_decide_eq_true hxy))

instance : IsTotal String strLe :=
  ⟨fun a b => leChars_total a.data b.data⟩

instance : IsTrans String strLe :=
  ⟨fun a b c => leChars_trans a.data b.data c.data⟩

instance : IsAntisymm String strLe :=
  ⟨fun a b h1 h2 => by
    have h := leChars_antisymm a.data b.data h1 h2
    cases a; cases b; exact congrArg String.mk h⟩

/-- Modelled from the spec: gen_jsonpaths traverses the dictionary from the
root path and returns the collected paths sorted (test_jsonpaths pins the
sorted output order, which a Python dict cannot supply by iteration). -/
def gen_jsonpaths (d : JValue) (k : Nat) : JsonPathsDoc :=
  ⟨List.insertionSort strLe (pathsOf k "$" d)⟩

/-- Number of leaves of a dictionary value. -/
def leafCount : JValue → Nat
  | JValue.scalar _ => 1
  | JValue.arr _ => 1
  | JValue.objNil => 0
  | JValue.objCons _ v rest => leafCount v + leafCount rest

theorem length_pathsOf (k : Nat) (d : JValue) :
    ∀ pre, (pathsOf k pre d).length = leafCount d := by
  induction d with
  | scalar n => intro pre; rfl
  | arr es => intro pre; rfl
  | objNil => intro pre; rfl
  | objCons key v rest ihv ihr =>
    intro pre
    simp [pathsOf, leafCount, ihv, ihr]

theorem pathsOf_objOfList (k : Nat) (pre : String)
    (l : List (String × JValue)) :
    pathsOf k pre (objOfList l)
      = l.flatMap (fun kv => pathsOf k (pre ++ "['" ++ kv.1 ++ "']") kv.2) := by
  induction l with
  | nil => rfl
  | cons kv rest ih =>
    cases kv with
    | mk key v => simp [objOfList, pathsOf, ih]

/-- C6: gen_jsonpaths returns a jsonpaths object holding one bracketed path
string per leaf of the dictionary, built by recursive traversal; on the two
dictionaries of test_jsonpaths it produces exactly the expected path lists,
a scalar under keys one, two yielding a doubly bracketed path and a list
value yielding a path ending in the supplied array index. -/
theorem C6_gen_jsonpaths_leaf_paths :
    (∀ (d : JValue) (k : Nat),
        (gen_jsonpaths d k).jsonpaths.length = leafCount d) ∧
    gen_jsonpaths (objOfList
        [("one", JValue.scalar 1),
         ("two", objOfList [("three", JValue.scalar 3)])]) 0
      = ⟨["$['one']", "$['two']['three']"]⟩ ∧
    gen_jsonpaths (objOfList
        [("one", JValue.arr [0, 1, 2]),
         ("a", objOfList [("b", JValue.arr [0])])]) 1
      = ⟨["$['a']['b'][1]", "$['one'][1]"]⟩ := by
  refine ⟨?_, by decide, by decide⟩
  intro d k
  have hp := List.perm_insertionSort strLe (pathsOf k "$" d)
  calc (gen_jsonpaths d k).jsonpaths.length
      = (pathsOf k "$" d).length := hp.length_eq
    _ = leafCount d := length_pathsOf k d "$"

/-- C10: the jsonpaths list is sorted lexicographically by path string, and
the output of gen_jsonpaths depends only on the key-value content of the
dictionary, not on its insertion order: permuted field sequences give equal
results. -/
theorem C10_gen_jsonpaths_sorted_order_independent :
    (∀ (d : JValue) (k : Nat),
        List.Sorted strLe (gen_jsonpaths d k).jsonpaths) ∧
    (∀ (k : Nat) (l₁ l₂ : List (String × JValue)), l₁.Perm l₂ →
        gen_jsonpaths (objOfList l₁) k = gen_jsonpaths (objOfList l₂) k) := by
  constructor
  · intro d k
    exact List.sorted_insertionSort _ _
  · intro k l₁ l₂ hp
    have hperm : (pathsOf k "$" (objOfList l₁)).Perm
        (pathsOf k "$" (objOfList l₂)) := by
      rw [pathsOf_objOfList, pathsOf_objOfList]
      exact hp.flatMap_right _
    have h1 := List.perm_insertionSort strLe (pathsOf k "$" (objOfList l₁))
    have h2 := List.perm_insertionSort strLe (pathsOf k "$" (objOfList l₂))
    have heq : List.insertionSort strLe (pathsOf k "$" (objOfList l₁))
        = List.insertionSort strLe (pathsOf k "$" (objOfList l₂)) :=
      List.eq_of_perm_of_sorted (h1.trans (hperm.trans h2.symm))
        (List.sorted_insertionSort _ _) (List.sorted_insertionSort _ _)
    simp only [gen_jsonpaths]
    exact congrArg JsonPathsDoc.mk heq

/-- C10 witness: the second test dictionary of test_jsonpaths, inserted in
the two possible orders, yields the same sorted jsonpaths object. -/
theorem C10_witness :
    ([(("one" : String), JValue.arr [0, 1, 2]),
      ("a", objOfList [("b", JValue.arr [0])])].Perm
     [("a", objOfList [("b", JValue.arr [0])]),
      ("one", JValue.arr [0, 1, 2])]) ∧
    gen_jsonpaths (objOfList
        [("one", JValue.arr [0, 1, 2]),
         ("a", objOfList [("b", JValue.arr [0])])]) 1
      = gen_jsonpaths (objOfList
        [("a", objOfList [("b", JValue.arr [0])]),
         ("one", JValue.arr [0, 1, 2])]) 1 :=
  ⟨by decide,
    C10_gen_jsonpaths_sorted_order_independent.2 1 _ _ (by decide)⟩

/-- Comma-and-space joining of a name list, the rendering of the group list
in CREATE USER. -/
def joinComma : List String → String
  | [] => ""
  | [g] => g
  | g :: gs => g ++ ", " ++ joinComma gs

/-- Modelled from the spec: create_user generates the user-creation SQL,
optionally placing the user in groups, with the password, an optional VALID
UNTIL timestamp (the datetime formatting is external, so the timestamp
arrives as a preformatted string), and an appended ALTER USER statement when
a wlm_query_slot_count is requested.  The exact statement text is pinned by
test_create_user. -/
def create_user (name password : String) (groups : List String)
    (wlm_query_slot_count : Option Nat) (valid_until : Option String) :
    String :=
  let groupClause :=
    if groups.isEmpty then "" else " IN GROUP " ++ joinComma groups
  let base :=
    "CREATE USER " ++ name ++ groupClause ++ " PASSWORD '" ++ password ++ "'"
  let base2 :=
    match valid_until with
    | none => base
    | some t => base ++ " VALID UNTIL '" ++ t ++ "'"
  match wlm_query_slot_count with
  | none => base2
  | some n =>
      base2 ++ ";\n" ++ "ALTER USER " ++ name
        ++ " SET wlm_query_slot_count = " ++ Nat.repr n

/-- Modelled from the spec: alter_user generates the user-alteration SQL;
the password form is pinned by test_alter_user. -/
def alter_user (name password : String) : String :=
  "ALTER USER " ++ name ++ " PASSWORD '" ++ password ++ "'"

/-- C7: the user-administration SQL generators return the documented
statement text: create_user with one group and a slot count yields the
CREATE USER statement followed by the ALTER USER wlm statement, create_user
with a validity timestamp appends the VALID UNTIL clause, and alter_user
with a password yields the ALTER USER password statement. -/
theorem C7_user_admin_sql (name password g t : String) (n : Nat) :
    create_user name password [g] (some n) none
      = "CREATE USER " ++ name ++ " IN GROUP " ++ g ++ " PASSWORD '"
        ++ password ++ "'" ++ ";\n" ++ "ALTER USER " ++ name
        ++ " SET wlm_query_slot_count = " ++ Nat.repr n ∧
    create_user name password [] none (some t)
      = "CREATE USER " ++ name ++ "" ++ " PASSWORD '" ++ password ++ "'"
        ++ " VALID UNTIL '" ++ t ++ "'" ∧
    alter_user name password
      = "ALTER USER " ++ name ++ " PASSWORD '" ++ password ++ "'" ∧
    create_user "swiper" "swiperpass" ["analyticsusers"] (some 2) none
      = "CREATE USER swiper IN GROUP analyticsusers PASSWORD 'swiperpass';\n"
        ++ "ALTER USER swiper SET wlm_query_slot_count = 2" ∧
    create_user "swiper" "swiperpass" [] none (some "2015-01-01 00:00:00")
      = "CREATE USER swiper PASSWORD 'swiperpass' "
        ++ "VALID UNTIL '2015-01-01 00:00:00'" ∧
    alter_user "swiper" "swiperpass"
      = "ALTER USER swiper PASSWORD 'swiperpass'" := by
  refine ⟨?_, ?_, rfl, by decide, by decide, by decide⟩
  · simp [create_user, joinComma, String.append_assoc]
  · simp [create_user, String.append_assoc]

/-- A table column: its name and its rendered SQL type. -/
structure Column where
  name : String
  ctype : String

/-- A table: its name and its columns, as reflected from the database. -/
structure Table where
  name : String
  columns : List Column

/-- The column definition block of a CREATE TABLE statement, one column per
line. -/
def colDefs : List Column → String
  | [] => ""
  | [c] => c.name ++ " " ++ c.ctype
  | c :: cs => c.name ++ " " ++ c.ctype ++ ",\n" ++ colDefs cs

/-- Modelled from the spec: deep_copy generates the "deduplication via table
rewrite" batch pinned by test_dedupe: lock, rename to a $outgoing table,
recreate, reinsert (SELECT DISTINCT when deduplicating), drop the outgoing
table.  The spec says nothing about privilege copying, so the
copy_privileges flag contributes nothing to the model; the claim concerns
only the disabled case. -/
def deep_copy (t : Table) (distinct : Bool) (copy_privileges : Bool) :
    String :=
  let out := t.name ++ "$outgoing"
  let sel := if distinct then "SELECT DISTINCT" else "SELECT"
  "LOCK TABLE " ++ t.name ++ ";\n"
    ++ "ALTER TABLE " ++ t.name ++ " RENAME TO " ++ out ++ ";\n"
    ++ "CREATE TABLE " ++ t.name ++ " (\n" ++ colDefs t.columns ++ "\n)\n;\n"
    ++ "INSERT INTO " ++ t.name ++ " " ++ sel ++ " * from " ++ out ++ ";\n"
    ++ "DROP TABLE " ++ out

/-- Whitespace stripped from line ends by the test helper. -/
def isBlankChar (c : Char) : Bool := c == ' ' || c == '\t'

/-- Strip blanks from both ends of a line. -/
def trimChars (l : List Char) : List Char :=
  ((l.dropWhile isBlankChar).reverse.dropWhile isBlankChar).reverse

/-- Join lines with single newlines. -/
def joinNl : List (List Char) → List Char
  | [] => []
  | [l] => l
  | l :: ls => l ++ '\n' :: joinNl ls

/-- Translated from cleaned in test_redshift.py: split the statement into
lines, strip each line, drop empty lines, and rejoin with newlines. -/
def cleaned (cs : List Char) : List Char :=
  joinNl (((splitNl cs).map trimChars).filter (fun l => !l.isEmpty))

/-- C8: deep_copy with distinct enabled and privilege copying disabled
generates exactly, in order: LOCK TABLE, ALTER TABLE RENAME TO the
$outgoing table, CREATE TABLE with the column definitions, INSERT INTO with
SELECT DISTINCT from the outgoing table, DROP TABLE of the outgoing table;
on the one-column test table it matches the statement expected by
test_dedupe up to the whitespace normalization the test applies. -/
theorem C8_deep_copy_dedupe (t : Table) :
    deep_copy t true false
      = "LOCK TABLE " ++ t.name ++ ";\n"
        ++ "ALTER TABLE " ++ t.name ++ " RENAME TO "
          ++ (t.name ++ "$outgoing") ++ ";\n"
        ++ "CREATE TABLE " ++ t.name ++ " (\n" ++ colDefs t.columns
          ++ "\n)\n;\n"
        ++ "INSERT INTO " ++ t.name ++ " " ++ "SELECT DISTINCT" ++ " * from "
          ++ (t.name ++ "$outgoing") ++ ";\n"
        ++ "DROP TABLE " ++ (t.name ++ "$outgoing") ∧
    cleaned (deep_copy ⟨"test", [⟨"col1", "INTEGER"⟩]⟩ true false).data
      = cleaned ("\n    LOCK TABLE test;\n    ALTER TABLE test RENAME TO "
          ++ "test$outgoing;\n    CREATE TABLE test (\n    col1 INTEGER\n"
          ++ "    )\n    ;\n    INSERT INTO test SELECT DISTINCT * from "
          ++ "test$outgoing;\n    DROP TABLE test$outgoing\n    ").data := by
  exact ⟨rfl, by decide⟩

/-- The S3 object keys created by one copy_json_to_table call: one per chunk
plus the generated manifest and jsonpaths descriptors. -/
inductive KeyName where
  | chunk (i : Nat)
  | manifest
  | jsonpaths
deriving DecidableEq

/-- The extension of each uploaded key, the last dot-separated component of
its path, as checked by check_key_calls in test_redshift.py. -/
def keyExt : KeyName → String
  | KeyName.chunk _ => "gz"
  | KeyName.manifest => "manifest"
  | KeyName.jsonpaths => "jsonpaths"

/-- Modelled from the spec: the S3 key path of each uploaded object, under
the requested keypath prefix and the generated timestamp stamp. -/
def renderKey (keypath stamp : String) : KeyName → String
  | KeyName.chunk i => keypath ++ stamp ++ "-" ++ Nat.repr i ++ ".gz"
  | KeyName.manifest => keypath ++ stamp ++ ".manifest"
  | KeyName.jsonpaths => keypath ++ stamp ++ ".jsonpaths"

/-- The S3 URL of a key in a bucket, as reconstructed by
get_manifest_and_jsonpaths_keys in the test. -/
def s3url (bucket key : String) : String :=
  "s3://" ++ bucket ++ "/" ++ key

/-- One step of the ingestion pipeline.  The spec calls the pipeline
"orchestration glue" that "sequences calls into an existing SQL-execution
library and an existing object-storage client library", so the model of
copy_json_to_table is the trace of those calls: S3 key operations, key
deletions, local file writes and removals, and SQL executions. -/
inductive Event where
  | newKey (k : KeyName)
  | setContentsFromFile (k : KeyName)
  | closeKey (k : KeyName)
  | deleteKeys (ks : List KeyName)
  | executeSql (sql : String)
  | writeLocal (path : String)
  | removeLocal (path : String)
deriving DecidableEq

/-- Upload a sequence of keys: each key is created, its contents are set
from the local file, and it is closed. -/
def uploadEvents (ks : List KeyName) : List Event :=
  ks.flatMap (fun k =>
    [Event.newKey k, Event.setContentsFromFile k, Event.closeKey k])

/-- The chunk keys of one call, one per slice index. -/
def chunkKeys (slices : Nat) : List KeyName :=
  (List.range slices).map KeyName.chunk

/-- The CREDENTIALS clause of the COPY statement, pinned by
test_copy_to_json. -/
def credentials (aws_access_key_id aws_secret_access_key : String) : String :=
  "aws_access_key_id=" ++ aws_access_key_id
    ++ ";aws_secret_access_key=" ++ aws_secret_access_key

/-- The COPY statement issued by copy_json_to_table, pinned by
test_copy_to_json. -/
def copy_sql (table manifest_url creds jsonpaths_url : String) : String :=
  "COPY " ++ table ++ "\nFROM '" ++ manifest_url ++ "'\nCREDENTIALS '"
    ++ creds ++ "'\nJSON '" ++ jsonpaths_url
    ++ "'\nMANIFEST GZIP TIMEFORMAT 'auto'"

/-- Modelled from the spec: copy_json_to_table partitions the data, writes
the chunk files locally, uploads each chunk plus the generated manifest and
jsonpaths descriptors to the bucket, issues one COPY statement referencing
the two uploaded descriptors, and then optionally deletes the uploaded keys
and the local files.  The generated timestamp is the stamp parameter; the
result is the trace of calls into the storage and SQL layers. -/
def copy_json_to_table (bucket keypath : String)
    (aws_access_key_id aws_secret_access_key : String)
    (_data : List (List Char)) (_jsonpaths_doc : JsonPathsDoc)
    (table : String) (slices : Nat) (clean_up_s3 clean_up_local : Bool)
    (local_dir stamp : String) : List Event :=
  let paths := chunkPaths local_dir stamp slices
  let keys := chunkKeys slices ++ [KeyName.manifest, KeyName.jsonpaths]
  let murl := s3url bucket (renderKey keypath stamp KeyName.manifest)
  let jurl := s3url bucket (renderKey keypath stamp KeyName.jsonpaths)
  paths.map Event.writeLocal
    ++ uploadEvents (chunkKeys slices)
    ++ uploadEvents [KeyName.manifest, KeyName.jsonpaths]
    ++ [Event.executeSql (copy_sql table murl
          (credentials aws_access_key_id aws_secret_access_key) jurl)]
    ++ (if clean_up_s3 then [Event.deleteKeys keys] else [])
    ++ (if clean_up_local then paths.map Event.removeLocal else [])

/-- The keys created on the bucket during a trace, in order. -/
def uploadedKeys (tr : List Event) : List KeyName :=
  tr.flatMap (fun e =>
    match e with
    | Event.newKey k => [k]
    | _ => [])

/-- The keys whose contents were set from a file, with multiplicity. -/
def setKeys (tr : List Event) : List KeyName :=
  tr.flatMap (fun e =>
    match e with
    | Event.setContentsFromFile k => [k]
    | _ => [])

/-- The keys closed during a trace, with multiplicity. -/
def closedKeys (tr : List Event) : List KeyName :=
  tr.flatMap (fun e =>
    match e with
    | Event.closeKey k => [k]
    | _ => [])

/-- The SQL statements executed on the warehouse during a trace. -/
def executedStatements (tr : List Event) : List String :=
  tr.flatMap (fun e =>
    match e with
    | Event.executeSql s => [s]
    | _ => [])

/-- The keys deleted from the bucket during a trace. -/
def deletedKeys (tr : List Event) : List KeyName :=
  tr.flatMap (fun e =>
    match e with
    | Event.deleteKeys ks => ks
    | _ => [])

/-- The local files written during a trace. -/
def writtenLocal (tr : List Event) : List String :=
  tr.flatMap (fun e =>
    match e with
    | Event.writeLocal p => [p]
    | _ => [])

/-- The local files removed during a trace. -/
def removedLocal (tr : List Event) : List String :=
  tr.flatMap (fun e =>
    match e with
    | Event.removeLocal p => [p]
    | _ => [])

/-- The local files still present when the call returns: written and never
removed. -/
def remainingLocal (tr : List Event) : List String :=
  (writtenLocal tr).filter (fun p => !(removedLocal tr).contains p)

theorem flatMap_const_nil (l : List α) :
    (l.flatMap fun _ => ([] : List β)) = [] := by
  induction l with
  | nil => rfl
  | cons a l ih => simp [ih]

theorem copy_trace_shape (bucket keypath aid asec : String)
    (data : List (List Char)) (jp : JsonPathsDoc) (table : String)
    (slices : Nat) (cs3 cloc : Bool) (local_dir stamp : String) :
    uploadedKeys (copy_json_to_table bucket keypath aid asec data jp table
        slices cs3 cloc local_dir stamp)
      = chunkKeys slices ++ [KeyName.manifest, KeyName.jsonpaths] ∧
    setKeys (copy_json_to_table bucket keypath aid asec data jp table
        slices cs3 cloc local_dir stamp)
      = chunkKeys slices ++ [KeyName.manifest, KeyName.jsonpaths] ∧
    closedKeys (copy_json_to_table bucket keypath aid asec data jp table
        slices cs3 cloc local_dir stamp)
      = chunkKeys slices ++ [KeyName.manifest, KeyName.jsonpaths] ∧
    executedStatements (copy_json_to_table bucket keypath aid asec data jp
        table slices cs3 cloc local_dir stamp)
      = [copy_sql table (s3url bucket (renderKey keypath stamp
            KeyName.manifest)) (credentials aid asec)
          (s3url bucket (renderKey keypath stamp KeyName.jsonpaths))] ∧
    deletedKeys (copy_json_to_table bucket keypath aid asec data jp table
        slices cs3 cloc local_dir stamp)
      = (if cs3 then chunkKeys slices ++ [KeyName.manifest, KeyName.jsonpaths]
         else []) ∧
    writtenLocal (copy_json_to_table bucket keypath aid asec data jp table
        slices cs3 cloc local_dir stamp)
      = chunkPaths local_dir stamp slices ∧
    removedLocal (copy_json_to_table bucket keypath aid asec data jp table
        slices cs3 cloc local_dir stamp)
      = (if cloc then chunkPaths local_dir stamp slices else []) := by
  cases cs3 <;> cases cloc <;>
    refine ⟨?_, ?_, ?_, ?_, ?_, ?_, ?_⟩ <;>
      simp [copy_json_to_table, uploadEvents, uploadedKeys, setKeys,
        closedKeys, executedStatements, deletedKeys, writtenLocal,
        removedLocal, List.flatMap_assoc, List.flatMap_map, flatMap_const_nil]

theorem nodup_uploaded_keys (slices : Nat) :
    (chunkKeys slices ++ [KeyName.manifest, KeyName.jsonpaths]).Nodup := by
  apply List.Nodup.append
  · exact List.Nodup.map (fun a b h => by injection h) (List.nodup_range slices)
  · decide
  · intro a ha hb
    obtain ⟨i, _, rfl⟩ := List.mem_map.mp ha
    simp at hb

/-- C3: every copy_json_to_table call with N slices uploads exactly N + 2
objects to the bucket: the list of key extensions is N copies of gz followed
by one manifest and one jsonpaths, and every uploaded key has its contents
set from a file exactly once and is closed exactly once. -/
theorem C3_copy_json_uploads (bucket keypath aid asec : String)
    (data : List (List Char)) (jp : JsonPathsDoc) (table : String)
    (slices : Nat) (cs3 cloc : Bool) (local_dir stamp : String) :
    (uploadedKeys (copy_json_to_table bucket keypath aid asec data jp table
        slices cs3 cloc local_dir stamp)).length = slices + 2 ∧
    (uploadedKeys (copy_json_to_table bucket keypath aid asec data jp table
        slices cs3 cloc local_dir stamp)).map keyExt
      = List.replicate slices "gz" ++ ["manifest", "jsonpaths"] ∧
    (∀ k, k ∈ uploadedKeys (copy_json_to_table bucket keypath aid asec data
        jp table slices cs3 cloc local_dir stamp) →
      (setKeys (copy_json_to_table bucket keypath aid asec data jp table
          slices cs3 cloc local_dir stamp)).count k = 1 ∧
      (closedKeys (copy_json_to_table bucket keypath aid asec data jp table
          slices cs3 cloc local_dir stamp)).count k = 1) := by
  obtain ⟨hu, hs, hc, -, -, -, -⟩ := copy_trace_shape bucket keypath aid asec
    data jp table slices cs3 cloc local_dir stamp
  refine ⟨?_, ?_, ?_⟩
  · rw [hu]; simp [chunkKeys]
  · rw [hu, List.map_append, chunkKeys, List.map_map]
    rw [show keyExt ∘ KeyName.chunk = fun _ => "gz" from funext fun i => rfl]
    rw [List.map_const', List.length_range]
    rfl
  · intro k hk
    rw [hu] at hk
    rw [hs, hc]
    exact ⟨List.count_eq_one_of_mem (nodup_uploaded_keys slices) hk,
      List.count_eq_one_of_mem (nodup_uploaded_keys slices) hk⟩

/-- C3 witness: on a concrete call with five slices, the manifest key is
among the uploaded keys and its contents are set and closed exactly once. -/
theorem C3_witness :
    KeyName.manifest ∈ uploadedKeys (copy_json_to_table "com.simple.mock"
      "tmp/tests/" "access_key" "secret_key" [] ⟨[]⟩ "foo_table" 5 true true
      "dir" "stamp") ∧
    ((setKeys (copy_json_to_table "com.simple.mock" "tmp/tests/" "access_key"
        "secret_key" [] ⟨[]⟩ "foo_table" 5 true true "dir"
        "stamp")).count KeyName.manifest = 1 ∧
     (closedKeys (copy_json_to_table "com.simple.mock" "tmp/tests/"
        "access_key" "secret_key" [] ⟨[]⟩ "foo_table" 5 true true "dir"
        "stamp")).count KeyName.manifest = 1) :=
  ⟨by decide,
    (C3_copy_json_uploads "com.simple.mock" "tmp/tests/" "access_key"
      "secret_key" [] ⟨[]⟩ "foo_table" 5 true true "dir" "stamp").2.2
      KeyName.manifest (by decide)⟩

/-- C4: every copy_json_to_table call executes exactly one warehouse SQL
statement, the COPY statement built from the table name, the S3 URL of the
manifest key uploaded by the same call, the access-key credentials pair,
and the S3 URL of the jsonpaths key uploaded by the same call; on the
concrete test arguments the statement text is exactly the one expected by
test_copy_to_json. -/
theorem C4_copy_statement (bucket keypath aid asec : String)
    (data : List (List Char)) (jp : JsonPathsDoc) (table : String)
    (slices : Nat) (cs3 cloc : Bool) (local_dir stamp : String) :
    (executedStatements (copy_json_to_table bucket keypath aid asec data jp
        table slices cs3 cloc local_dir stamp)
      = [copy_sql table
          (s3url bucket (renderKey keypath stamp KeyName.manifest))
          (credentials aid asec)
          (s3url bucket (renderKey keypath stamp KeyName.jsonpaths))] ∧
     KeyName.manifest ∈ uploadedKeys (copy_json_to_table bucket keypath aid
        asec data jp table slices cs3 cloc local_dir stamp) ∧
     KeyName.jsonpaths ∈ uploadedKeys (copy_json_to_table bucket keypath aid
        asec data jp table slices cs3 cloc local_dir stamp)) ∧
    copy_sql "foo_table" (s3url "com.simple.mock"
        (renderKey "tmp/tests/" "stamp" KeyName.manifest))
      (credentials "access_key" "secret_key")
      (s3url "com.simple.mock"
        (renderKey "tmp/tests/" "stamp" KeyName.jsonpaths))
      = "COPY foo_table\nFROM 's3://com.simple.mock/tmp/tests/stamp.manifest'"
        ++ "\nCREDENTIALS 'aws_access_key_id=access_key"
        ++ ";aws_secret_access_key=secret_key'"
        ++ "\nJSON 's3://com.simple.mock/tmp/tests/stamp.jsonpaths'"
        ++ "\nMANIFEST GZIP TIMEFORMAT 'auto'" := by
  obtain ⟨hu, -, -, he, -, -, -⟩ := copy_trace_shape bucket keypath aid asec
    data jp table slices cs3 cloc local_dir stamp
  refine ⟨⟨he, ?_, ?_⟩, by decide⟩
  · rw [hu]; simp
  · rw [hu]; simp

/-- C5: cleanup is optional and exact: with remote cleanup enabled the keys
deleted from the bucket are exactly the keys uploaded by the call; with
clean_up_s3 disabled no remote key is deleted; and with clean_up_local
disabled the N local chunk files all remain on disk after the call. -/
theorem C5_cleanup_optional_exact (bucket keypath aid asec : String)
    (data : List (List Char)) (jp : JsonPathsDoc) (table : String)
    (slices : Nat) (cs3 cloc : Bool) (local_dir stamp : String) :
    deletedKeys (copy_json_to_table bucket keypath aid asec data jp table
        slices true cloc local_dir stamp)
      = uploadedKeys (copy_json_to_table bucket keypath aid asec data jp
        table slices true cloc local_dir stamp) ∧
    deletedKeys (copy_json_to_table bucket keypath aid asec data jp table
        slices false cloc local_dir stamp) = [] ∧
    remainingLocal (copy_json_to_table bucket keypath aid asec data jp table
        slices cs3 false local_dir stamp)
      = chunkPaths local_dir stamp slices ∧
    (remainingLocal (copy_json_to_table bucket keypath aid asec data jp
        table slices cs3 false local_dir stamp)).length = slices := by
  obtain ⟨hu1, -, -, -, hd1, -, -⟩ := copy_trace_shape bucket keypath aid
    asec data jp table slices true cloc local_dir stamp
  obtain ⟨-, -, -, -, hd2, -, -⟩ := copy_trace_shape bucket keypath aid
    asec data jp table slices false cloc local_dir stamp
  obtain ⟨-, -, -, -, -, hw3, hr3⟩ := copy_trace_shape bucket keypath aid
    asec data jp table slices cs3 false local_dir stamp
  have hrem : remainingLocal (copy_json_to_table bucket keypath aid asec
      data jp table slices cs3 false local_dir stamp)
      = chunkPaths local_dir stamp slices := by
    rw [remainingLocal, hw3, hr3]
    simp only [if_neg Bool.false_ne_true]
    exact List.filter_eq_self.mpr (fun a _ => rfl)
  refine ⟨?_, ?_, hrem, ?_⟩
  · rw [hd1, hu1]; simp
  · rw [hd2]; simp
  · rw [hrem]; simp [chunkPaths]

end Shiftmanager
